import Mathlib

/-!
Shallow embedding of the `gui_lib` module of `freezeGit/graphics`
(`src/src/lib.rs`), covering the data model and the operations of
`BasicCanvas`: the ordered list of shape handles, identity-based lookup,
the reordering operations `put_on_top_handle` and `put_on_top_of_handle`,
`remove_shape_handle`, `add_shape`, and the paint sequence produced by the
render pass.

Modelling choices:
- `f32` values (coordinates, line widths) are embedded as `ℚ`; the code
  only adds, multiplies and halves them.
- An `Rc<RefCell<dyn Shape>>` (`ShapeHandle`) is embedded as an allocation
  identity (`id : Nat`) paired with the shape value it points to;
  `Rc::ptr_eq` compares only the identity.
- The egui painter is embedded as a list of paint commands: each painter
  call appends one command carrying exactly the arguments the code passes.
- Widget invocation during render touches only the widget list and the
  message buffer in the source (the shape loop borrows `self.shapes`
  immutably); widgets are embedded as opaque values and their invocation,
  which depends on external UI interaction, is not modelled.
-/

set_option autoImplicit false

namespace GuiLib

/-- Embeds `egui::Pos2` (two `f32` coordinates, as `ℚ`). -/
structure Pos2 where
  x : ℚ
  y : ℚ
deriving DecidableEq

/-- Embeds `egui::Vec2` (two `f32` coordinates, as `ℚ`). -/
structure Vec2 where
  x : ℚ
  y : ℚ
deriving DecidableEq

/-- Embeds `egui::Color32` (four 8-bit channels). -/
structure Color32 where
  r : Nat
  g : Nat
  b : Nat
  a : Nat
deriving DecidableEq

/-- `Color32::BLACK`. -/
def Color32.black : Color32 := ⟨0, 0, 0, 255⟩

/-- `Color32::TRANSPARENT`. -/
def Color32.transparent : Color32 := ⟨0, 0, 0, 0⟩

/-- Embeds `enum LineStyle { Solid, Dashed, Dotted }` (lib.rs:471-478). -/
inductive LineStyle where
  | Solid
  | Dashed
  | Dotted
deriving DecidableEq

/-- Embeds `enum LayoutStyle { TopPanel, SidePanel, NoPanel }` (lib.rs:31-36). -/
inductive LayoutStyle where
  | TopPanel
  | SidePanel
  | NoPanel
deriving DecidableEq

/-- Embeds `struct ShapeBase` (lib.rs:481-489). -/
structure ShapeBase where
  location : Pos2
  points : List Pos2
  color : Color32
  fill_color : Color32
  line_width : ℚ
  line_style : LineStyle
deriving DecidableEq

/-- Embeds `ShapeBase::default()` (lib.rs:537-552). -/
def ShapeBase.default : ShapeBase :=
  { location := ⟨0, 0⟩
    points := []
    color := Color32.black
    fill_color := Color32.transparent
    line_width := 2
    line_style := LineStyle.Solid }

/-- Embeds `ShapeBase::points_translated` (lib.rs:590-592). -/
def ShapeBase.points_translated (b : ShapeBase) (offset : Vec2) : List Pos2 :=
  b.points.map (fun p => ⟨p.x + offset.x, p.y + offset.y⟩)

/-- Embeds `ShapeBase::dash_length` (lib.rs:594-596): `4.0 * self.line_width`. -/
def ShapeBase.dash_length (b : ShapeBase) : ℚ :=
  4 * b.line_width

/-- Embeds `ShapeBase::dash_gap` (lib.rs:597-599): `1.0 + (2.0 * self.line_width)`. -/
def ShapeBase.dash_gap (b : ShapeBase) : ℚ :=
  1 + 2 * b.line_width

/-- Embeds `ShapeBase::dot_radius` (lib.rs:600-602): `self.line_width / 2.0`. -/
def ShapeBase.dot_radius (b : ShapeBase) : ℚ :=
  b.line_width / 2

/-- Embeds `ShapeBase::dot_spacing` (lib.rs:603-605): `1.0 + (2.0 * self.line_width)`. -/
def ShapeBase.dot_spacing (b : ShapeBase) : ℚ :=
  1 + 2 * b.line_width

/-- The concrete shape variants implementing `trait Shape`:
`Polyline` (lib.rs:613-616), `Circle` (lib.rs:675-679, adds `radius`),
`Rectangle` (lib.rs:716-720, adds `size`). -/
inductive ShapeVal where
  | polyline (base : ShapeBase)
  | circle (base : ShapeBase) (radius : ℚ)
  | rectangle (base : ShapeBase) (size : Vec2)
deriving DecidableEq

/-- Painter calls issued during a render pass, carrying exactly the
arguments the source passes to the egui painter. -/
inductive PaintCmd where
  | rectFilled (color : Color32)
  | pathLine (points : List Pos2) (width : ℚ) (color : Color32)
  | dashedLine (points : List Pos2) (width : ℚ) (color : Color32)
      (dashLength gap : ℚ)
  | dottedLine (points : List Pos2) (color : Color32) (spacing radius : ℚ)
  | circleCmd (center : Pos2) (radius : ℚ) (fill : Color32)
      (width : ℚ) (color : Color32)
  | rectCmd (center : Pos2) (size : Vec2) (fill : Color32)
      (width : ℚ) (color : Color32)
deriving DecidableEq

/-- Embeds the `draw_at` implementations of the three shape variants:
`Polyline::draw_at` (lib.rs:638-667), `Circle::draw_at` (lib.rs:704-713),
`Rectangle::draw_at` (lib.rs:744-753). -/
def draw_at (s : ShapeVal) (canvas_offset : Vec2) : List PaintCmd :=
  match s with
  | ShapeVal.polyline base =>
    let translation : Vec2 :=
      ⟨base.location.x + canvas_offset.x, base.location.y + canvas_offset.y⟩
    let points := base.points_translated translation
    match base.line_style with
    | LineStyle.Solid =>
      [PaintCmd.pathLine points base.line_width base.color]
    | LineStyle.Dashed =>
      [PaintCmd.dashedLine points base.line_width base.color
        base.dash_length base.dash_gap]
    | LineStyle.Dotted =>
      [PaintCmd.dottedLine points base.color base.dot_spacing base.dot_radius]
  | ShapeVal.circle base radius =>
    [PaintCmd.circleCmd
      ⟨base.location.x + canvas_offset.x, base.location.y + canvas_offset.y⟩
      radius base.fill_color base.line_width base.color]
  | ShapeVal.rectangle base size =>
    [PaintCmd.rectCmd
      ⟨base.location.x + canvas_offset.x, base.location.y + canvas_offset.y⟩
      size base.fill_color base.line_width base.color]

/-- Embeds `ShapeHandle = Rc<RefCell<dyn Shape>>` (lib.rs:28): an
allocation identity (the `Rc` pointer) together with the shape value it
points to. `Rc::ptr_eq` compares the identity only. -/
structure ShapeHandle where
  id : Nat
  shape : ShapeVal
deriving DecidableEq

/-- Embeds `Rc::ptr_eq`: pointer-identity comparison of two handles. -/
def ptr_eq (a b : ShapeHandle) : Bool :=
  a.id == b.id

/-- Embeds `Iterator::position(pred)`: index of the first element
satisfying the predicate. -/
def position {α : Type} (p : α → Bool) : List α → Option Nat
  | [] => none
  | x :: xs => if p x then some 0 else (position p xs).map (· + 1)

/-- Embeds `Vec::remove(i)`: returns the removed element and the remaining
list. `none` corresponds to the out-of-range panic, which is unreachable at
every call site (the index always comes from a successful `position`). -/
def removeAt {α : Type} : List α → Nat → Option (α × List α)
  | [], _ => none
  | x :: xs, 0 => some (x, xs)
  | x :: xs, n + 1 => (removeAt xs n).map (fun q => (q.1, x :: q.2))

/-- Embeds `Vec::insert(i, x)` on an in-range index. The out-of-range
fallback (inserting at the end) is unreachable at every call site. -/
def insertAt {α : Type} : List α → Nat → α → List α
  | l, 0, x => x :: l
  | [], _ + 1, x => [x]
  | y :: l, n + 1, x => y :: insertAt l n x

/-- Element lookup by index. -/
def nth {α : Type} : List α → Nat → Option α
  | [], _ => none
  | x :: _, 0 => some x
  | _ :: xs, n + 1 => nth xs n

/-- Embeds `struct BasicCanvas` (lib.rs:70-76). Widgets carry external UI
state not touched by any shape operation; they are embedded as opaque
values. -/
structure BasicCanvas where
  layout : LayoutStyle
  background_color : Color32
  shapes : List ShapeHandle
  widgets : List Nat
deriving DecidableEq

namespace BasicCanvas

/-- Embeds `BasicCanvas::new` (lib.rs:79-86). -/
def new (layout : LayoutStyle) (bkg : Color32) : BasicCanvas :=
  { layout := layout
    background_color := bkg
    shapes := []
    widgets := [] }

/-- Embeds `BasicCanvas::index_of_handle` (lib.rs:96-98):
`self.shapes.iter().position(|h| Rc::ptr_eq(h, target))`. -/
def index_of_handle (c : BasicCanvas) (target : ShapeHandle) : Option Nat :=
  position (fun h => ptr_eq h target) c.shapes

/-- Embeds `BasicCanvas::add_shape` (lib.rs:105-107): `self.shapes.push(s)`. -/
def add_shape (c : BasicCanvas) (s : ShapeHandle) : BasicCanvas :=
  { c with shapes := c.shapes ++ [s] }

/-- Embeds `BasicCanvas::put_on_top_handle` (lib.rs:132-142). -/
def put_on_top_handle (c : BasicCanvas) (a : ShapeHandle) : Bool × BasicCanvas :=
  match position (fun h => ptr_eq h a) c.shapes with
  | none => (false, c)
  | some i =>
    if i + 1 = c.shapes.length then (true, c)
    else
      match removeAt c.shapes i with
      | none => (false, c)
      | some (entry, rest) => (true, { c with shapes := rest ++ [entry] })

/-- Embeds `BasicCanvas::put_on_top_of_handle` (lib.rs:157-179). -/
def put_on_top_of_handle (c : BasicCanvas) (a b : ShapeHandle) :
    Bool × BasicCanvas :=
  match c.index_of_handle a, c.index_of_handle b with
  | some ia, some ib =>
    if ia = ib then (true, c)
    else
      match removeAt c.shapes ia with
      | none => (false, c)
      | some (entry, rest) =>
        let ib' := if ia < ib then ib - 1 else ib
        (true, { c with shapes := insertAt rest (ib' + 1) entry })
  | _, _ => (false, c)

/-- Embeds `BasicCanvas::remove_shape_handle` (lib.rs:190-197). -/
def remove_shape_handle (c : BasicCanvas) (s : ShapeHandle) :
    Bool × BasicCanvas :=
  match c.index_of_handle s with
  | some i =>
    match removeAt c.shapes i with
    | none => (false, c)
    | some (_, rest) => (true, { c with shapes := rest })
  | none => (false, c)

/-- The painter calls issued in the `CentralPanel` closure shared by
`render_with_top_panel` (lib.rs:231-242) and `render_with_side_panel`
(lib.rs:258-269): fill the background, then draw each shape in list order
translated by the panel offset. -/
def central_panel_cmds (c : BasicCanvas) (offset : Vec2) : List PaintCmd :=
  PaintCmd.rectFilled c.background_color ::
    (c.shapes.map (fun s => draw_at s.shape offset)).flatten

/-- Paint sequence of `BasicCanvas::render_with_top_panel` (lib.rs:219-243).
The render pass only reads `self.shapes`. -/
def render_with_top_panel (c : BasicCanvas) (offset : Vec2) :
    List PaintCmd × BasicCanvas :=
  (c.central_panel_cmds offset, c)

/-- Paint sequence of `BasicCanvas::render_with_side_panel` (lib.rs:246-270). -/
def render_with_side_panel (c : BasicCanvas) (offset : Vec2) :
    List PaintCmd × BasicCanvas :=
  (c.central_panel_cmds offset, c)

/-- Paint sequence of `BasicCanvas::render_with_no_panel` (lib.rs:273-287):
shapes are drawn via `Shape::draw`, i.e. `draw_at` with `Vec2::ZERO`
(lib.rs:500-502). -/
def render_with_no_panel (c : BasicCanvas) : List PaintCmd × BasicCanvas :=
  (c.central_panel_cmds ⟨0, 0⟩, c)

/-- Embeds `BasicCanvas::render` (lib.rs:210-216): dispatch on the layout. -/
def render (c : BasicCanvas) (offset : Vec2) : List PaintCmd × BasicCanvas :=
  match c.layout with
  | LayoutStyle.TopPanel => c.render_with_top_panel offset
  | LayoutStyle.SidePanel => c.render_with_side_panel offset
  | LayoutStyle.NoPanel => c.render_with_no_panel

end BasicCanvas

/-- The shape list has pairwise distinct identities (the spec's
no-duplicate-identities invariant). -/
@[reducible] def ids_nodup (c : BasicCanvas) : Prop :=
  (c.shapes.map ShapeHandle.id).Nodup

/-- Handle `a` occurs immediately after the first occurrence of handle `b`
in the list (by pointer identity). -/
def immediately_on_top_of (l : List ShapeHandle) (a b : ShapeHandle) : Prop :=
  ∃ jb, position (fun h => ptr_eq h b) l = some jb ∧
    ∃ e, nth l (jb + 1) = some e ∧ ptr_eq e a = true

/-! Concrete shapes and canvases for the spec scenarios. Identities are
distinct allocation numbers; `shapeTwin` shares all visual attributes with
`shapeA` but is a different allocation. -/

/-- Concrete handle A: a circle of radius 75 (cf. the demo's `sc1`). -/
def shapeA : ShapeHandle := ⟨0, ShapeVal.circle ShapeBase.default 75⟩

/-- Concrete handle B: a circle of radius 10 (cf. the demo's `sc2`). -/
def shapeB : ShapeHandle := ⟨1, ShapeVal.circle ShapeBase.default 10⟩

/-- Concrete handle C: a rectangle (cf. the demo's `sr`). -/
def shapeC : ShapeHandle := ⟨2, ShapeVal.rectangle ShapeBase.default ⟨150, 100⟩⟩

/-- A handle never added to any of the scenario canvases. -/
def shapeD : ShapeHandle := ⟨9, ShapeVal.polyline ShapeBase.default⟩

/-- A second allocation with identical visual attributes to `shapeA` but a
different identity. -/
def shapeTwin : ShapeHandle := ⟨3, ShapeVal.circle ShapeBase.default 75⟩

/-- Canvas with three shapes added in the order A, B, C. -/
def canvasABC : BasicCanvas :=
  (((BasicCanvas.new LayoutStyle.TopPanel Color32.black).add_shape
    shapeA).add_shape shapeB).add_shape shapeC

/-- Canvas with A added before B (A directly precedes B). -/
def canvasAB : BasicCanvas :=
  ((BasicCanvas.new LayoutStyle.TopPanel Color32.black).add_shape
    shapeA).add_shape shapeB

/-- Canvas with B added before A (A directly follows B). -/
def canvasBA : BasicCanvas :=
  ((BasicCanvas.new LayoutStyle.TopPanel Color32.black).add_shape
    shapeB).add_shape shapeA

/-- Canvas obtained by adding the same handle twice. -/
def canvasDup : BasicCanvas :=
  ((BasicCanvas.new LayoutStyle.TopPanel Color32.black).add_shape
    shapeA).add_shape shapeA

/-- Canvas holding two distinct shapes with identical visual attributes. -/
def canvasTwin : BasicCanvas :=
  ((BasicCanvas.new LayoutStyle.TopPanel Color32.black).add_shape
    shapeA).add_shape shapeTwin

/-! Helper lemmas about the list primitives. -/

theorem position_eq_none_iff {α : Type} (p : α → Bool) (l : List α) :
    position p l = none ↔ ∀ x ∈ l, p x = false := by
  induction l with
  | nil => simp [position]
  | cons x xs ih =>
    by_cases hx : p x = true
    · simp [position, hx]
    · simp only [position, hx, if_false, Option.map_eq_none']
      simp only [Bool.not_eq_true] at hx
      simp [ih, hx]

theorem position_first {α : Type} (p : α → Bool) (l1 : List α) (x : α)
    (l2 : List α) (h1 : ∀ y ∈ l1, p y = false) (hx : p x = true) :
    position p (l1 ++ x :: l2) = some l1.length := by
  induction l1 with
  | nil => simp [position, hx]
  | cons y ys ih =>
    have hy : p y = false := h1 y (List.mem_cons_self y ys)
    have hys : ∀ z ∈ ys, p z = false := fun z hz => h1 z (List.mem_cons_of_mem y hz)
    simp [position, hy, ih hys]

theorem position_eq_some_decomp {α : Type} (p : α → Bool) :
    ∀ (l : List α) (i : Nat), position p l = some i →
      ∃ l1 x l2, l = l1 ++ x :: l2 ∧ l1.length = i ∧ p x = true ∧
        ∀ y ∈ l1, p y = false := by
  intro l
  induction l with
  | nil => intro i h; simp [position] at h
  | cons x xs ih =>
    intro i h
    by_cases hx : p x = true
    · have hi : i = 0 := by
        simp [position, hx] at h
        omega
      exact ⟨[], x, xs, by simp, by simp [hi], hx, by simp⟩
    · simp only [position, hx, if_false] at h
      simp only [Bool.not_eq_true] at hx
      rcases Option.map_eq_some'.mp h with ⟨j, hj, hji⟩
      rcases ih j hj with ⟨l1, y, l2, hdec, hlen, hpy, hfree⟩
      refine ⟨x :: l1, y, l2, by simp [hdec], by simp [hlen, hji], hpy, ?_⟩
      intro z hz
      rcases List.mem_cons.mp hz with hz | hz
      · simpa [hz] using hx
      · exact hfree z hz

theorem removeAt_append {α : Type} (l1 : List α) (x : α) (l2 : List α) :
    removeAt (l1 ++ x :: l2) l1.length = some (x, l1 ++ l2) := by
  induction l1 with
  | nil => simp [removeAt]
  | cons y ys ih => simp [removeAt, ih]

theorem insertAt_append {α : Type} (l1 l2 : List α) (x : α) :
    insertAt (l1 ++ l2) l1.length x = l1 ++ x :: l2 := by
  induction l1 with
  | nil => cases l2 <;> simp [insertAt]
  | cons y ys ih => simp [insertAt, ih]

theorem nth_append {α : Type} (l1 : List α) (x : α) (l2 : List α) :
    nth (l1 ++ x :: l2) l1.length = some x := by
  induction l1 with
  | nil => simp [nth]
  | cons y ys ih => simp [nth, ih]

theorem split_align {α : Type} :
    ∀ (l1 : List α) (x : α) (l2 m1 : List α) (y : α) (m2 : List α),
      l1 ++ x :: l2 = m1 ++ y :: m2 → l1.length < m1.length →
      ∃ t, m1 = l1 ++ x :: t ∧ l2 = t ++ y :: m2 := by
  intro l1
  induction l1 with
  | nil =>
    intro x l2 m1 y m2 heq hlt
    cases m1 with
    | nil => simp at hlt
    | cons z zs =>
      simp only [List.nil_append, List.cons_append, List.cons.injEq] at heq
      exact ⟨zs, by simp [heq.1], heq.2⟩
  | cons w ws ih =>
    intro x l2 m1 y m2 heq hlt
    cases m1 with
    | nil => simp at hlt
    | cons z zs =>
      simp only [List.cons_append, List.cons.injEq] at heq
      simp only [List.length_cons, Nat.add_lt_add_iff_right] at hlt
      rcases ih x l2 zs y m2 heq.2 hlt with ⟨t, h1, h2⟩
      exact ⟨t, by simp [heq.1, h1], h2⟩

theorem position_congr {α : Type} (p q : α → Bool) (l : List α)
    (h : ∀ x, p x = q x) : position p l = position q l := by
  have : p = q := funext h
  rw [this]

/-! Core lemmas about the canvas operations. -/

theorem put_on_top_handle_not_found (c : BasicCanvas) (a : ShapeHandle)
    (h : c.index_of_handle a = none) :
    c.put_on_top_handle a = (false, c) := by
  have h' : position (fun x => ptr_eq x a) c.shapes = none := h
  simp [BasicCanvas.put_on_top_handle, h']

theorem put_on_top_of_handle_not_found (c : BasicCanvas) (a b : ShapeHandle)
    (h : c.index_of_handle a = none ∨ c.index_of_handle b = none) :
    c.put_on_top_of_handle a b = (false, c) := by
  rcases h with h | h
  · cases hb : c.index_of_handle b <;>
      simp [BasicCanvas.put_on_top_of_handle, h, hb]
  · cases ha : c.index_of_handle a <;>
      simp [BasicCanvas.put_on_top_of_handle, h, ha]

theorem remove_shape_handle_not_found (c : BasicCanvas) (s : ShapeHandle)
    (h : c.index_of_handle s = none) :
    c.remove_shape_handle s = (false, c) := by
  simp [BasicCanvas.remove_shape_handle, h]

theorem remove_shape_handle_found (c : BasicCanvas) (s : ShapeHandle) (i : Nat)
    (h : c.index_of_handle s = some i) :
    ∃ l1 entry l2, c.shapes = l1 ++ entry :: l2 ∧ l1.length = i ∧
      ptr_eq entry s = true ∧ (∀ y ∈ l1, ptr_eq y s = false) ∧
      c.remove_shape_handle s = (true, { c with shapes := l1 ++ l2 }) := by
  rcases position_eq_some_decomp _ _ _ h with ⟨l1, entry, l2, hdec, hlen, hp, hfree⟩
  refine ⟨l1, entry, l2, hdec, hlen, hp, hfree, ?_⟩
  have hrem : removeAt c.shapes i = some (entry, l1 ++ l2) := by
    rw [hdec, ← hlen]
    exact removeAt_append l1 entry l2
  simp [BasicCanvas.remove_shape_handle, h, hrem]

theorem put_on_top_handle_found (c : BasicCanvas) (a : ShapeHandle) (i : Nat)
    (h : c.index_of_handle a = some i) :
    ∃ entry rest, removeAt c.shapes i = some (entry, rest) ∧
      ptr_eq entry a = true ∧
      c.put_on_top_handle a = (true, { c with shapes := rest ++ [entry] }) ∧
      (rest ++ [entry]).Perm c.shapes := by
  rcases position_eq_some_decomp _ _ _ h with ⟨l1, entry, l2, hdec, hlen, hp, hfree⟩
  have h' : position (fun x => ptr_eq x a) c.shapes = some i := h
  have hrem : removeAt c.shapes i = some (entry, l1 ++ l2) := by
    rw [hdec, ← hlen]
    exact removeAt_append l1 entry l2
  have hperm : ((l1 ++ l2) ++ [entry]).Perm c.shapes := by
    rw [hdec]
    exact (List.perm_append_singleton entry (l1 ++ l2)).trans List.perm_middle.symm
  refine ⟨entry, l1 ++ l2, hrem, hp, ?_, hperm⟩
  by_cases hlast : i + 1 = c.shapes.length
  · have hlength : c.shapes.length = l1.length + l2.length + 1 := by
      simp [hdec]
      omega
    have hl2 : l2 = [] := by
      have : l2.length = 0 := by omega
      exact List.length_eq_zero.mp this
    have hsh : c.shapes = (l1 ++ l2) ++ [entry] := by
      rw [hdec, hl2]
      simp
    have hcanvas : { c with shapes := (l1 ++ l2) ++ [entry] } = c := by
      rw [← hsh]
    rw [hcanvas]
    simp [BasicCanvas.put_on_top_handle, h', hlast]
  · simp [BasicCanvas.put_on_top_handle, h', hlast, hrem]

theorem put_on_top_of_handle_same_id (c : BasicCanvas) (a b : ShapeHandle)
    (hid : a.id = b.id) (ia : Nat) (ha : c.index_of_handle a = some ia) :
    c.put_on_top_of_handle a b = (true, c) := by
  have hpred : (fun x => ptr_eq x a) = (fun x => ptr_eq x b) := by
    funext x
    simp [ptr_eq, hid]
  have hb : c.index_of_handle b = some ia := by
    have heq : c.index_of_handle b = c.index_of_handle a := by
      unfold BasicCanvas.index_of_handle
      rw [hpred]
    rw [heq, ha]
  simp [BasicCanvas.put_on_top_of_handle, ha, hb]

theorem put_on_top_of_handle_found (c : BasicCanvas) (a b : ShapeHandle)
    (ia ib : Nat) (ha : c.index_of_handle a = some ia)
    (hb : c.index_of_handle b = some ib) (hne : ia ≠ ib) :
    (c.put_on_top_of_handle a b).1 = true ∧
    immediately_on_top_of (c.put_on_top_of_handle a b).2.shapes a b ∧
    (c.put_on_top_of_handle a b).2.shapes.Perm c.shapes := by
  rcases position_eq_some_decomp _ _ _ ha with ⟨l1, a', l2, hadec, halen, hpa, hafree⟩
  rcases position_eq_some_decomp _ _ _ hb with ⟨m1, b', m2, hbdec, hblen, hpb, hbfree⟩
  have hrem : removeAt c.shapes ia = some (a', l1 ++ l2) := by
    rw [hadec, ← halen]
    exact removeAt_append l1 a' l2
  rcases Nat.lt_or_ge ia ib with hlt | hge
  · -- `a` was in front of `b`: the adjusted index is `ib - 1`.
    have hllen : l1.length < m1.length := by omega
    rcases split_align l1 a' l2 m1 b' m2 (hadec.symm.trans hbdec) hllen with ⟨t, hm1, hl2⟩
    have hXlen : (l1 ++ t ++ [b']).length = ib := by
      have : m1.length = l1.length + 1 + t.length := by
        simp [hm1]
        omega
      simp
      omega
    have hins : insertAt (l1 ++ l2) (ib - 1 + 1) a' = (l1 ++ t ++ [b']) ++ a' :: m2 := by
      have hib1 : ib - 1 + 1 = ib := by omega
      have hsplit : l1 ++ l2 = (l1 ++ t ++ [b']) ++ m2 := by
        rw [hl2]
        simp
      rw [hib1, hsplit, ← hXlen, insertAt_append]
    have hresult : c.put_on_top_of_handle a b =
        (true, { c with shapes := (l1 ++ t ++ [b']) ++ a' :: m2 }) := by
      simp [BasicCanvas.put_on_top_of_handle, ha, hb, hne, hrem, hlt, hins]
    refine ⟨by rw [hresult], ?_, ?_⟩
    · rw [hresult]
      refine ⟨(l1 ++ t).length, ?_, a', ?_, hpa⟩
      · have hshape : (l1 ++ t ++ [b']) ++ a' :: m2 = (l1 ++ t) ++ b' :: (a' :: m2) := by
          simp
        have hfreeLT : ∀ y ∈ l1 ++ t, ptr_eq y b = false := by
          intro y hy
          apply hbfree
          rw [hm1]
          rcases List.mem_append.mp hy with hy | hy
          · exact List.mem_append.mpr (Or.inl hy)
          · exact List.mem_append.mpr (Or.inr (List.mem_cons_of_mem a' hy))
        show position (fun h => ptr_eq h b) ((l1 ++ t ++ [b']) ++ a' :: m2) =
          some (l1 ++ t).length
        rw [hshape]
        exact position_first _ _ _ _ hfreeLT hpb
      · have hshape : (l1 ++ t ++ [b']) ++ a' :: m2 = ((l1 ++ t) ++ [b']) ++ a' :: m2 := by
          simp
        have hlen2 : ((l1 ++ t) ++ [b']).length = (l1 ++ t).length + 1 := by
          simp
          omega
        rw [hshape, ← hlen2]
        exact nth_append _ a' m2
    · rw [hresult]
      have hp1 : ((t ++ [b']) ++ a' :: m2).Perm (a' :: (t ++ b' :: m2)) := by
        have := @List.perm_middle _ a' (t ++ [b']) m2
        simpa using this
      have hp2 : (l1 ++ ((t ++ [b']) ++ a' :: m2)).Perm (l1 ++ a' :: (t ++ b' :: m2)) :=
        hp1.append_left l1
      have hL : (l1 ++ t ++ [b']) ++ a' :: m2 = l1 ++ ((t ++ [b']) ++ a' :: m2) := by
        simp
      have hRr : c.shapes = l1 ++ a' :: (t ++ b' :: m2) := by
        rw [hadec, hl2]
      rw [hRr]
      show ((l1 ++ t ++ [b']) ++ a' :: m2).Perm (l1 ++ a' :: (t ++ b' :: m2))
      rw [hL]
      exact hp2
  · -- `b` is in front of `a`: the index of `b` is unchanged by the removal.
    have hlt' : ib < ia := by omega
    have hmlen : m1.length < l1.length := by omega
    rcases split_align m1 b' m2 l1 a' l2 (hbdec.symm.trans hadec) hmlen with ⟨t, hl1, hm2⟩
    have hXlen : (m1 ++ [b']).length = ib + 1 := by simp [hblen]
    have hins : insertAt (l1 ++ l2) (ib + 1) a' = (m1 ++ [b']) ++ a' :: (t ++ l2) := by
      have hsplit : l1 ++ l2 = (m1 ++ [b']) ++ (t ++ l2) := by
        rw [hl1]
        simp
      rw [hsplit, ← hXlen, insertAt_append]
    have hnlt : ¬ ia < ib := by omega
    have hresult : c.put_on_top_of_handle a b =
        (true, { c with shapes := (m1 ++ [b']) ++ a' :: (t ++ l2) }) := by
      simp [BasicCanvas.put_on_top_of_handle, ha, hb, hne, hrem, hnlt, hins]
    refine ⟨by rw [hresult], ?_, ?_⟩
    · rw [hresult]
      refine ⟨m1.length, ?_, a', ?_, hpa⟩
      · have hshape : (m1 ++ [b']) ++ a' :: (t ++ l2) = m1 ++ b' :: (a' :: (t ++ l2)) := by
          simp
        show position (fun h => ptr_eq h b) ((m1 ++ [b']) ++ a' :: (t ++ l2)) =
          some m1.length
        rw [hshape]
        exact position_first _ _ _ _ hbfree hpb
      · have hlen2 : (m1 ++ [b']).length = m1.length + 1 := by simp
        rw [← hlen2]
        exact nth_append _ a' (t ++ l2)
    · rw [hresult]
      have hp1 : (a' :: (t ++ l2)).Perm (t ++ a' :: l2) := List.perm_middle.symm
      have hp2 : (b' :: (a' :: (t ++ l2))).Perm (b' :: (t ++ a' :: l2)) := hp1.cons b'
      have hp3 : (m1 ++ b' :: (a' :: (t ++ l2))).Perm (m1 ++ b' :: (t ++ a' :: l2)) :=
        hp2.append_left m1
      have hL : (m1 ++ [b']) ++ a' :: (t ++ l2) = m1 ++ b' :: (a' :: (t ++ l2)) := by
        simp
      have hRr : c.shapes = m1 ++ b' :: (t ++ a' :: l2) := by
        rw [hbdec, hm2]
      rw [hRr, hL]
      exact hp3

theorem index_ne_of_id_ne (c : BasicCanvas) (a b : ShapeHandle) (ia ib : Nat)
    (ha : c.index_of_handle a = some ia) (hb : c.index_of_handle b = some ib)
    (hid : a.id ≠ b.id) : ia ≠ ib := by
  intro h
  rcases position_eq_some_decomp _ _ _ ha with ⟨l1, x, l2, hdec, hlen, hp, _⟩
  rcases position_eq_some_decomp _ _ _ hb with ⟨m1, y, m2, hdec2, hlen2, hp2, _⟩
  have hx : nth c.shapes ia = some x := by
    rw [hdec, ← hlen]
    exact nth_append _ _ _
  have hy : nth c.shapes ib = some y := by
    rw [hdec2, ← hlen2]
    exact nth_append _ _ _
  rw [h] at hx
  have hxy : x = y := by
    rw [hx] at hy
    exact Option.some.inj hy
  simp [ptr_eq] at hp hp2
  exact hid (by rw [← hp, hxy, hp2])

theorem put_on_top_of_handle_eq_idx (c : BasicCanvas) (a b : ShapeHandle)
    (i : Nat) (ha : c.index_of_handle a = some i)
    (hb : c.index_of_handle b = some i) :
    c.put_on_top_of_handle a b = (true, c) := by
  simp [BasicCanvas.put_on_top_of_handle, ha, hb]

theorem foldl_add_shape_shapes :
    ∀ (hs : List ShapeHandle) (c : BasicCanvas),
      (hs.foldl BasicCanvas.add_shape c).shapes = c.shapes ++ hs ∧
      (hs.foldl BasicCanvas.add_shape c).background_color = c.background_color := by
  intro hs
  induction hs with
  | nil => intro c; simp
  | cons x t ih =>
    intro c
    constructor
    · rw [List.foldl_cons, (ih (c.add_shape x)).1]
      simp [BasicCanvas.add_shape]
    · rw [List.foldl_cons, (ih (c.add_shape x)).2]
      rfl

/-! Claim theorems. -/

/-- C1: on every canvas containing both `a` and `b` by pointer identity
with distinct identities, `put_on_top_of_handle a b` returns true and
leaves an occurrence of `a` immediately after the first occurrence of `b`;
if either identity is absent it returns false; if `a` and `b` have the
same identity (and are present) it is a no-op returning true; and on the
concrete canvas [A, B, C], putting A on top of B yields the order
[B, A, C]. -/
theorem put_on_top_of_handle_spec :
    (∀ (c : BasicCanvas) (a b : ShapeHandle) (ia ib : Nat),
      c.index_of_handle a = some ia → c.index_of_handle b = some ib →
      a.id ≠ b.id →
      (c.put_on_top_of_handle a b).1 = true ∧
      immediately_on_top_of (c.put_on_top_of_handle a b).2.shapes a b) ∧
    (∀ (c : BasicCanvas) (a b : ShapeHandle),
      c.index_of_handle a = none ∨ c.index_of_handle b = none →
      (c.put_on_top_of_handle a b).1 = false) ∧
    (∀ (c : BasicCanvas) (a b : ShapeHandle) (ia : Nat),
      a.id = b.id → c.index_of_handle a = some ia →
      c.put_on_top_of_handle a b = (true, c)) ∧
    (canvasABC.put_on_top_of_handle shapeA shapeB).1 = true ∧
    (canvasABC.put_on_top_of_handle shapeA shapeB).2.shapes =
      [shapeB, shapeA, shapeC] := by
  refine ⟨?_, ?_, ?_, by decide, by decide⟩
  · intro c a b ia ib ha hb hid
    have hne := index_ne_of_id_ne c a b ia ib ha hb hid
    have h := put_on_top_of_handle_found c a b ia ib ha hb hne
    exact ⟨h.1, h.2.1⟩
  · intro c a b h
    rw [put_on_top_of_handle_not_found c a b h]
  · intro c a b ia hid ha
    exact put_on_top_of_handle_same_id c a b hid ia ha

/-- Witness for C1 at concrete inputs: the [A, B, C] reorder, a missing
handle, and the same-identity no-op. -/
theorem put_on_top_of_handle_spec_witness :
    ((canvasABC.put_on_top_of_handle shapeA shapeB).1 = true ∧
      immediately_on_top_of (canvasABC.put_on_top_of_handle shapeA shapeB).2.shapes
        shapeA shapeB) ∧
    (canvasABC.put_on_top_of_handle shapeD shapeB).1 = false ∧
    canvasDup.put_on_top_of_handle shapeA shapeA = (true, canvasDup) :=
  ⟨put_on_top_of_handle_spec.1 canvasABC shapeA shapeB 0 1 (by decide) (by decide)
      (by decide),
    put_on_top_of_handle_spec.2.1 canvasABC shapeD shapeB (Or.inl (by decide)),
    put_on_top_of_handle_spec.2.2.1 canvasDup shapeA shapeA 0 rfl (by decide)⟩

/-- C2 counterexample: on the canvas [A, B], where `A` directly precedes
`B`, `put_on_top_of_handle A B` returns true but visibly reorders the
shape list to [B, A], so the call is not a no-op. -/
theorem put_on_top_of_adjacent_cex :
    (canvasAB.put_on_top_of_handle shapeA shapeB).1 = true ∧
    (canvasAB.put_on_top_of_handle shapeA shapeB).2.shapes ≠ canvasAB.shapes ∧
    (canvasAB.put_on_top_of_handle shapeA shapeB).2.shapes = [shapeB, shapeA] :=
  ⟨by decide, by decide, by decide⟩

/-- C2 amended: calling `put_on_top_of_handle a b` when `a` directly
follows `b` already (`a` is the entry immediately after `b`, i.e. already
directly on top of it in paint order) is idempotent: it causes no visible
reorder of the shape list and returns true. -/
theorem put_on_top_of_adjacent_noop (c : BasicCanvas) (a b : ShapeHandle)
    (j : Nat) (hb : c.index_of_handle b = some j)
    (ha : c.index_of_handle a = some (j + 1)) :
    c.put_on_top_of_handle a b = (true, c) := by
  rcases position_eq_some_decomp _ _ _ ha with ⟨l1, a', l2, hadec, halen, hpa, hafree⟩
  rcases position_eq_some_decomp _ _ _ hb with ⟨m1, b', m2, hbdec, hblen, hpb, hbfree⟩
  have hmlen : m1.length < l1.length := by omega
  rcases split_align m1 b' m2 l1 a' l2 (hbdec.symm.trans hadec) hmlen with ⟨t, hl1, hm2⟩
  have ht : t = [] := by
    have hlen : l1.length = m1.length + (t.length + 1) := by simp [hl1]
    have : t.length = 0 := by omega
    exact List.length_eq_zero.mp this
  subst ht
  have hrem : removeAt c.shapes (j + 1) = some (a', l1 ++ l2) := by
    rw [hadec, ← halen]
    exact removeAt_append l1 a' l2
  have hne : j + 1 ≠ j := by omega
  have hnlt : ¬ (j + 1 < j) := by omega
  have hins : insertAt (l1 ++ l2) (j + 1) a' = c.shapes := by
    have h1 : l1 ++ l2 = (m1 ++ [b']) ++ l2 := by
      rw [hl1]
    have h2 : (m1 ++ [b']).length = j + 1 := by simp [hblen]
    rw [h1, ← h2, insertAt_append, hadec, hl1]
  have hres : c.put_on_top_of_handle a b =
      (true, { c with shapes := insertAt (l1 ++ l2) (j + 1) a' }) := by
    simp [BasicCanvas.put_on_top_of_handle, ha, hb, hne, hrem, hnlt]
  rw [hres, hins]

/-- Witness for C2 amended: on the canvas [B, A] the call is a no-op. -/
theorem put_on_top_of_adjacent_noop_witness :
    canvasBA.put_on_top_of_handle shapeA shapeB = (true, canvasBA) :=
  put_on_top_of_adjacent_noop canvasBA shapeA shapeB 0 (by decide) (by decide)

/-- C3: `put_on_top_handle` returns true iff the identity is present; when
present at index `i` the entry removed there is identity-matching and is
reappended at the end of the draw list (so a subsequent render, which
paints the list in order, paints it last); when absent the call returns
false and changes nothing; when the match is already last the call is a
no-op returning true. -/
theorem put_on_top_handle_spec :
    (∀ (c : BasicCanvas) (a : ShapeHandle),
      ((c.put_on_top_handle a).1 = true ↔ c.index_of_handle a ≠ none)) ∧
    (∀ (c : BasicCanvas) (a : ShapeHandle) (i : Nat),
      c.index_of_handle a = some i →
      ∃ entry rest, removeAt c.shapes i = some (entry, rest) ∧
        ptr_eq entry a = true ∧
        (c.put_on_top_handle a).2.shapes = rest ++ [entry]) ∧
    (∀ (c : BasicCanvas) (a : ShapeHandle),
      c.index_of_handle a = none → c.put_on_top_handle a = (false, c)) ∧
    (∀ (c : BasicCanvas) (a : ShapeHandle) (i : Nat),
      c.index_of_handle a = some i → i + 1 = c.shapes.length →
      c.put_on_top_handle a = (true, c)) := by
  refine ⟨?_, ?_, ?_, ?_⟩
  · intro c a
    constructor
    · intro htrue hnone
      rw [put_on_top_handle_not_found c a hnone] at htrue
      simp at htrue
    · intro hne
      cases hidx : c.index_of_handle a with
      | none => exact absurd hidx hne
      | some i =>
        rcases put_on_top_handle_found c a i hidx with ⟨entry, rest, _, _, heq, _⟩
        rw [heq]
  · intro c a i hidx
    rcases put_on_top_handle_found c a i hidx with ⟨entry, rest, hrem, hp, heq, _⟩
    exact ⟨entry, rest, hrem, hp, by rw [heq]⟩
  · exact fun c a h => put_on_top_handle_not_found c a h
  · intro c a i hidx hlast
    have h' : position (fun x => ptr_eq x a) c.shapes = some i := hidx
    simp [BasicCanvas.put_on_top_handle, h', hlast]

/-- Witness for C3 at the concrete canvas [A, B, C]: moving A (bottom) to
the top, a missing handle, and the already-top no-op on C. -/
theorem put_on_top_handle_spec_witness :
    ((canvasABC.put_on_top_handle shapeA).1 = true ↔
      canvasABC.index_of_handle shapeA ≠ none) ∧
    (∃ entry rest, removeAt canvasABC.shapes 0 = some (entry, rest) ∧
      ptr_eq entry shapeA = true ∧
      (canvasABC.put_on_top_handle shapeA).2.shapes = rest ++ [entry]) ∧
    canvasABC.put_on_top_handle shapeD = (false, canvasABC) ∧
    canvasABC.put_on_top_handle shapeC = (true, canvasABC) :=
  ⟨put_on_top_handle_spec.1 canvasABC shapeA,
    put_on_top_handle_spec.2.1 canvasABC shapeA 0 (by decide),
    put_on_top_handle_spec.2.2.1 canvasABC shapeD (by decide),
    put_on_top_handle_spec.2.2.2 canvasABC shapeC 2 (by decide) (by decide)⟩

/-- C4 counterexample: duplicate identities are reachable through
`add_shape` (see C10); on the canvas [A, A] the first
`remove_shape_handle A` removes one entry and returns true, and a second
call with the same handle and no intervening re-add returns true again,
not false. -/
theorem remove_shape_twice_cex :
    (canvasDup.remove_shape_handle shapeA).1 = true ∧
    ((canvasDup.remove_shape_handle shapeA).2.remove_shape_handle shapeA).1 =
      true :=
  ⟨by decide, by decide⟩

/-- C4 amended: on every canvas whose shape list contains no duplicate
identities, `remove_shape_handle s` removes exactly the one entry matching
`s`'s identity (even when another shape has identical visual attributes,
as the concrete two-twin canvas shows), returns true when an entry was
removed, and a second call with the same handle returns false; when the
identity is absent it returns false and changes nothing. -/
theorem remove_shape_handle_spec (c : BasicCanvas) (s : ShapeHandle)
    (hnodup : ids_nodup c) :
    (∀ i, c.index_of_handle s = some i →
      ∃ l1 entry l2, c.shapes = l1 ++ entry :: l2 ∧ l1.length = i ∧
        ptr_eq entry s = true ∧
        c.remove_shape_handle s = (true, { c with shapes := l1 ++ l2 }) ∧
        ((c.remove_shape_handle s).2.remove_shape_handle s).1 = false) ∧
    (c.index_of_handle s = none → c.remove_shape_handle s = (false, c)) ∧
    (canvasTwin.remove_shape_handle shapeA).1 = true ∧
    (canvasTwin.remove_shape_handle shapeA).2.shapes = [shapeTwin] ∧
    ((canvasTwin.remove_shape_handle shapeA).2.remove_shape_handle shapeA).1 =
      false := by
  refine ⟨?_, remove_shape_handle_not_found c s, by decide, by decide, by decide⟩
  intro i hidx
  rcases remove_shape_handle_found c s i hidx with
    ⟨l1, entry, l2, hdec, hlen, hp, hfree, heq⟩
  refine ⟨l1, entry, l2, hdec, hlen, hp, heq, ?_⟩
  have hshapes2 : (c.remove_shape_handle s).2.shapes = l1 ++ l2 := by rw [heq]
  have hid : entry.id = s.id := by simpa [ptr_eq] using hp
  have hn : (c.shapes.map ShapeHandle.id).Nodup := hnodup
  rw [hdec] at hn
  simp only [List.map_append, List.map_cons] at hn
  have hnotin : entry.id ∉ l2.map ShapeHandle.id :=
    (List.nodup_cons.mp (List.Nodup.of_append_right hn)).1
  have hall : ∀ y ∈ l1 ++ l2, ptr_eq y s = false := by
    intro y hy
    rcases List.mem_append.mp hy with hy | hy
    · exact hfree y hy
    · have hyne : y.id ≠ entry.id := by
        intro hcontra
        exact hnotin (hcontra ▸ List.mem_map_of_mem ShapeHandle.id hy)
      have hys : y.id ≠ s.id := by
        rw [← hid]
        exact hyne
      simp [ptr_eq, hys]
  have hnone : (c.remove_shape_handle s).2.index_of_handle s = none := by
    show position (fun x => ptr_eq x s) (c.remove_shape_handle s).2.shapes = none
    rw [hshapes2]
    exact (position_eq_none_iff _ _).mpr hall
  rw [remove_shape_handle_not_found _ s hnone]

/-- Witness for C4 amended at the concrete canvas [A, B, C]: removing B. -/
theorem remove_shape_handle_spec_witness :
    ∃ l1 entry l2, canvasABC.shapes = l1 ++ entry :: l2 ∧ l1.length = 1 ∧
      ptr_eq entry shapeB = true ∧
      canvasABC.remove_shape_handle shapeB =
        (true, { canvasABC with shapes := l1 ++ l2 }) ∧
      ((canvasABC.remove_shape_handle shapeB).2.remove_shape_handle shapeB).1 =
        false :=
  (remove_shape_handle_spec canvasABC shapeB (by decide)).1 1 (by decide)

/-- C5: `add_shape` calls append in order (`foldl` over the list of added
handles), and in every layout mode the paint sequence is the background
fill followed by the shapes' draw commands in exact list order, so the
first added shape is painted first (bottom-most) and the last added shape
is painted last (top-most). -/
theorem render_insertion_order (c : BasicCanvas) (hs : List ShapeHandle)
    (offset : Vec2) :
    (hs.foldl BasicCanvas.add_shape c).shapes = c.shapes ++ hs ∧
    (∀ d : BasicCanvas, (d.render_with_top_panel offset).1 =
      PaintCmd.rectFilled d.background_color ::
        (d.shapes.map (fun s => draw_at s.shape offset)).flatten) ∧
    (∀ d : BasicCanvas, (d.render_with_side_panel offset).1 =
      PaintCmd.rectFilled d.background_color ::
        (d.shapes.map (fun s => draw_at s.shape offset)).flatten) ∧
    (∀ d : BasicCanvas, d.render_with_no_panel.1 =
      PaintCmd.rectFilled d.background_color ::
        (d.shapes.map (fun s => draw_at s.shape ⟨0, 0⟩)).flatten) ∧
    ((hs.foldl BasicCanvas.add_shape c).render_with_top_panel offset).1 =
      PaintCmd.rectFilled c.background_color ::
        ((c.shapes ++ hs).map (fun s => draw_at s.shape offset)).flatten := by
  refine ⟨(foldl_add_shape_shapes hs c).1, fun d => rfl, fun d => rfl,
    fun d => rfl, ?_⟩
  simp only [BasicCanvas.render_with_top_panel, BasicCanvas.central_panel_cmds]
  rw [(foldl_add_shape_shapes hs c).1, (foldl_add_shape_shapes hs c).2]

/-- C6: each of the three identity-based operations, called with a handle
whose identity is not in the shape list, returns false and leaves the
entire canvas (shape list, layout, background, widgets) exactly as it
was. -/
theorem not_found_inert (c : BasicCanvas) (a b s : ShapeHandle) :
    (c.index_of_handle a = none → c.put_on_top_handle a = (false, c)) ∧
    (c.index_of_handle a = none ∨ c.index_of_handle b = none →
      c.put_on_top_of_handle a b = (false, c)) ∧
    (c.index_of_handle s = none → c.remove_shape_handle s = (false, c)) :=
  ⟨put_on_top_handle_not_found c a, put_on_top_of_handle_not_found c a b,
    remove_shape_handle_not_found c s⟩

/-- Witness for C6: the absent handle D on the canvas [A, B, C]. -/
theorem not_found_inert_witness :
    canvasABC.put_on_top_handle shapeD = (false, canvasABC) ∧
    canvasABC.put_on_top_of_handle shapeD shapeB = (false, canvasABC) ∧
    canvasABC.remove_shape_handle shapeD = (false, canvasABC) :=
  ⟨(not_found_inert canvasABC shapeD shapeB shapeD).1 (by decide),
    (not_found_inert canvasABC shapeD shapeB shapeD).2.1 (Or.inl (by decide)),
    (not_found_inert canvasABC shapeD shapeB shapeD).2.2 (by decide)⟩

/-- C7: when the shape list has no duplicate identities, it still has none
after `put_on_top_handle`, `put_on_top_of_handle` or
`remove_shape_handle`. -/
theorem ops_preserve_nodup (c : BasicCanvas) (a b s : ShapeHandle)
    (h : ids_nodup c) :
    ids_nodup (c.put_on_top_handle a).2 ∧
    ids_nodup (c.put_on_top_of_handle a b).2 ∧
    ids_nodup (c.remove_shape_handle s).2 := by
  have hn : (c.shapes.map ShapeHandle.id).Nodup := h
  refine ⟨?_, ?_, ?_⟩
  · cases hidx : c.index_of_handle a with
    | none =>
      rw [put_on_top_handle_not_found c a hidx]
      exact h
    | some i =>
      rcases put_on_top_handle_found c a i hidx with ⟨entry, rest, _, _, heq, hperm⟩
      show ((c.put_on_top_handle a).2.shapes.map ShapeHandle.id).Nodup
      rw [show (c.put_on_top_handle a).2.shapes = rest ++ [entry] by rw [heq]]
      exact ((hperm.map ShapeHandle.id).nodup_iff).mpr hn
  · cases hia : c.index_of_handle a with
    | none =>
      rw [put_on_top_of_handle_not_found c a b (Or.inl hia)]
      exact h
    | some ia =>
      cases hib : c.index_of_handle b with
      | none =>
        rw [put_on_top_of_handle_not_found c a b (Or.inr hib)]
        exact h
      | some ib =>
        by_cases hee : ia = ib
        · subst hee
          rw [put_on_top_of_handle_eq_idx c a b ia hia hib]
          exact h
        · have hperm := (put_on_top_of_handle_found c a b ia ib hia hib hee).2.2
          show ((c.put_on_top_of_handle a b).2.shapes.map ShapeHandle.id).Nodup
          exact ((hperm.map ShapeHandle.id).nodup_iff).mpr hn
  · cases hidx : c.index_of_handle s with
    | none =>
      rw [remove_shape_handle_not_found c s hidx]
      exact h
    | some i =>
      rcases remove_shape_handle_found c s i hidx with
        ⟨l1, entry, l2, hdec, _, _, _, heq⟩
      have hsub : (l1 ++ l2).Sublist c.shapes := by
        rw [hdec]
        exact (List.sublist_cons_self entry l2).append_left l1
      show ((c.remove_shape_handle s).2.shapes.map ShapeHandle.id).Nodup
      rw [show (c.remove_shape_handle s).2.shapes = l1 ++ l2 by rw [heq]]
      exact hn.sublist (hsub.map ShapeHandle.id)

/-- Witness for C7 at the concrete canvas [A, B, C]. -/
theorem ops_preserve_nodup_witness :
    ids_nodup (canvasABC.put_on_top_handle shapeA).2 ∧
    ids_nodup (canvasABC.put_on_top_of_handle shapeA shapeB).2 ∧
    ids_nodup (canvasABC.remove_shape_handle shapeB).2 :=
  ops_preserve_nodup canvasABC shapeA shapeB shapeB (by decide)

/-- C8: `render` (in every layout mode) returns the canvas unchanged — in
particular the sequence of shape handles, contents and order, is identical
to what it was before the call; only the explicit add/reorder/remove
operations mutate it. -/
theorem render_preserves_shapes (c : BasicCanvas) (offset : Vec2) :
    (c.render offset).2 = c ∧
    (c.render offset).2.shapes = c.shapes ∧
    (c.render_with_top_panel offset).2 = c ∧
    (c.render_with_side_panel offset).2 = c ∧
    c.render_with_no_panel.2 = c := by
  have hr : (c.render offset).2 = c := by
    cases hl : c.layout <;>
      simp [BasicCanvas.render, hl, BasicCanvas.render_with_top_panel,
        BasicCanvas.render_with_side_panel, BasicCanvas.render_with_no_panel]
  exact ⟨hr, by rw [hr], rfl, rfl, rfl⟩

/-- C9: the derived dashed/dotted constants are exactly dash-length
`4 * line_width`, dash-gap `1 + 2 * line_width`, dot-radius
`line_width / 2`, dot-spacing `1 + 2 * line_width`, and
`Polyline::draw_at` passes exactly these to the dashed/dotted painter
calls for a non-solid line style. -/
theorem dash_dot_constants (b : ShapeBase) (loc : Pos2) (pts : List Pos2)
    (col fil : Color32) (w : ℚ) (offset : Vec2) :
    b.dash_length = 4 * b.line_width ∧
    b.dash_gap = 1 + 2 * b.line_width ∧
    b.dot_radius = b.line_width / 2 ∧
    b.dot_spacing = 1 + 2 * b.line_width ∧
    draw_at (ShapeVal.polyline ⟨loc, pts, col, fil, w, LineStyle.Dashed⟩) offset =
      [PaintCmd.dashedLine
        (pts.map (fun p => ⟨p.x + (loc.x + offset.x), p.y + (loc.y + offset.y)⟩))
        w col (4 * w) (1 + 2 * w)] ∧
    draw_at (ShapeVal.polyline ⟨loc, pts, col, fil, w, LineStyle.Dotted⟩) offset =
      [PaintCmd.dottedLine
        (pts.map (fun p => ⟨p.x + (loc.x + offset.x), p.y + (loc.y + offset.y)⟩))
        col (1 + 2 * w) (w / 2)] := by
  refine ⟨rfl, rfl, rfl, rfl, ?_, ?_⟩ <;>
    simp [draw_at, ShapeBase.points_translated, ShapeBase.dash_length,
      ShapeBase.dash_gap, ShapeBase.dot_radius, ShapeBase.dot_spacing]

/-- C10: `add_shape` appends unconditionally with no duplicate check, so
adding the same handle twice yields two entries with the same identity
(duplicate identities are reachable through the public interface), and
identity-based lookup finds the first occurrence (every earlier entry
fails the pointer comparison); concretely, on the canvas [A, A] the lookup
finds index 0 and `remove_shape_handle` removes the first entry. -/
theorem add_shape_appends (c : BasicCanvas) (s h : ShapeHandle) :
    (c.add_shape s).shapes = c.shapes ++ [s] ∧
    (((c.add_shape h).add_shape h).shapes.map ShapeHandle.id).count h.id =
      (c.shapes.map ShapeHandle.id).count h.id + 2 ∧
    (∀ i, c.index_of_handle h = some i →
      ∃ l1 entry l2, c.shapes = l1 ++ entry :: l2 ∧ l1.length = i ∧
        ptr_eq entry h = true ∧ ∀ y ∈ l1, ptr_eq y h = false) ∧
    canvasDup.shapes = [shapeA, shapeA] ∧
    canvasDup.index_of_handle shapeA = some 0 ∧
    (canvasDup.remove_shape_handle shapeA).2.shapes = [shapeA] := by
  refine ⟨rfl, ?_, ?_, by decide, by decide, by decide⟩
  · simp [BasicCanvas.add_shape, List.count_append]
  · intro i hidx
    exact position_eq_some_decomp _ _ _ hidx

/-- Witness for C10's lookup conjunct: B sits at index 1 of [A, B, C]. -/
theorem add_shape_appends_witness :
    ∃ l1 entry l2, canvasABC.shapes = l1 ++ entry :: l2 ∧ l1.length = 1 ∧
      ptr_eq entry shapeB = true ∧ ∀ y ∈ l1, ptr_eq y shapeB = false :=
  (add_shape_appends canvasABC shapeA shapeB).2.2.1 1 (by decide)

end GuiLib
